import Mathlib

/-!
Verification of the narration-timing and frame/audio synchronization subsystem
of the code-walkthrough video generator.

The functions below are shallow embeddings of the TypeScript source:
* `src/utils/timing.ts` — `calculateSpeakingDuration`, `parseSilenceMarkers`,
  `calculateTotalDuration`, `createTimingSegments`, `calculateFrameDurations`.
* `src/stages/video.ts` — the frame-duration selection step of `generateVideo`.

JavaScript numbers are modelled as exact rationals (`ℚ`); strings as `List Char`.
-/

namespace Walkthrough

/-- Presentation styles accepted by the timing utilities
(`'beginner' | 'technical' | 'overview'`). -/
inductive Style
  | beginner
  | technical
  | overview
deriving DecidableEq, Repr

/-- JavaScript whitespace as used by `String.prototype.trim` and the `\s`
regex class, restricted to the ASCII range (space, tab, line feed, carriage
return, vertical tab, form feed). -/
def isJsWhitespace (c : Char) : Bool :=
  c = ' ' || c = '\t' || c = '\n' || c = '\r' || c = '\x0b' || c = '\x0c'

/-- JavaScript `text.trim()`: strip leading and trailing whitespace. -/
def jsTrim (l : List Char) : List Char :=
  ((l.dropWhile isJsWhitespace).reverse.dropWhile isJsWhitespace).reverse

/-- Number of maximal non-whitespace runs in a character list.  The flag
records whether the previous character belonged to a run. -/
def nonWsRuns : Bool → List Char → Nat
  | _, [] => 0
  | inRun, c :: rest =>
    if isJsWhitespace c then nonWsRuns false rest
    else (if inRun then 0 else 1) + nonWsRuns true rest

/-- The word count `text.trim().split(/\s+/).length` from `calculateSpeakingDuration`
(timing.ts line 21).  For a trimmed non-empty string this is the number of
maximal non-whitespace runs; for the empty string JavaScript's `split`
returns `[""]`, hence length 1. -/
def countWords (text : List Char) : Nat :=
  let t := jsTrim text
  if nonWsRuns false t = 0 then 1 else nonWsRuns false t

/-- Words-per-minute table (timing.ts line 18):
`style === 'beginner' ? 130 : style === 'overview' ? 170 : 150`. -/
def wpmOf : Style → ℚ
  | .beginner => 130
  | .overview => 170
  | .technical => 150

/-- The function `calculateSpeakingDuration` (timing.ts lines 13-28):
`max(2, (words / wpm) * 60)`. -/
def calculateSpeakingDuration (text : List Char) (style : Style) : ℚ :=
  let wpm := wpmOf style
  let words : ℚ := (countWords text : ℚ)
  let duration := words / wpm * 60
  max 2 duration

/-- With at most 3 words, every rate stays below the 2-second floor. -/
theorem speakingDuration_le3 (text : List Char) (style : Style)
    (h : countWords text ≤ 3) :
    calculateSpeakingDuration text style = 2 := by
  have hw : ((countWords text : ℚ)) ≤ 3 := by exact_mod_cast h
  cases style <;>
    · simp only [calculateSpeakingDuration, wpmOf]
      rw [max_eq_left]
      rw [div_mul_eq_mul_div, div_le_iff₀ (by norm_num)]
      linarith

/-- Claim C9: for every style and every text of at most 3 words the
speaking duration is exactly the 2-second floor. -/
theorem speakingDuration_floor (text : List Char) (style : Style)
    (h : countWords text ≤ 3) :
    calculateSpeakingDuration text style = 2 :=
  speakingDuration_le3 text style h

/-- Witness for C9 on the concrete two-word text `"hi there"`. -/
theorem speakingDuration_floor_witness :
    calculateSpeakingDuration ("hi there".data) Style.beginner = 2 :=
  speakingDuration_floor _ _ (by decide)

/-- Claim C8: once the text has at least 6 words (the smallest count at which even
the fastest rate exceeds the 2-second floor), the speaking duration is
strictly decreasing in the speaking rate: beginner > technical > overview. -/
theorem speakingDuration_rate_mono (text : List Char) (h : 6 ≤ countWords text) :
    calculateSpeakingDuration text Style.overview
        < calculateSpeakingDuration text Style.technical ∧
    calculateSpeakingDuration text Style.technical
        < calculateSpeakingDuration text Style.beginner := by
  have hw : (6 : ℚ) ≤ (countWords text : ℚ) := by exact_mod_cast h
  simp only [calculateSpeakingDuration, wpmOf]
  rw [max_eq_right (by rw [div_mul_eq_mul_div, le_div_iff₀ (by norm_num)]; linarith),
    max_eq_right (by rw [div_mul_eq_mul_div, le_div_iff₀ (by norm_num)]; linarith),
    max_eq_right (by rw [div_mul_eq_mul_div, le_div_iff₀ (by norm_num)]; linarith)]
  constructor <;>
    · rw [div_mul_eq_mul_div, div_mul_eq_mul_div,
        div_lt_div_iff₀ (by norm_num) (by norm_num)]
      nlinarith

/-- Witness for C8 on a concrete six-word text. -/
theorem speakingDuration_rate_mono_witness :
    calculateSpeakingDuration ("one two three four five six".data) Style.overview
        < calculateSpeakingDuration ("one two three four five six".data) Style.technical ∧
    calculateSpeakingDuration ("one two three four five six".data) Style.technical
        < calculateSpeakingDuration ("one two three four five six".data) Style.beginner :=
  speakingDuration_rate_mono _ (by decide)

/-- Decimal value of a digit run, as computed by JavaScript's `parseInt`
on the captured group of the marker regex. -/
def digitsToNat (ds : List Char) : Nat :=
  ds.foldl (fun a c => a * 10 + (c.toNat - '0'.toNat)) 0

/-- The literal prefix of a silence marker. -/
def markerOpen : List Char := ['[', '[', 's', 'l', 'n', 'c', ' ']

/-- One attempted match of the regex `\[\[slnc (\d+)\]\]` at the head of
`l`: the literal opener, then a maximal non-empty digit run (greedy `\d+`
cannot backtrack here, since a shorter run would be followed by a digit,
not `]`), then `]]` (phrased as: the first two characters after the digit
run are `]`, `]`).  Returns the captured number and the characters after
the match. -/
def matchMarker (l : List Char) : Option (Nat × List Char) :=
  if markerOpen.isPrefixOf l ∧ (l.drop 7).takeWhile Char.isDigit ≠ [] ∧
      ((l.drop 7).dropWhile Char.isDigit).take 2 = [']', ']'] then
    some (digitsToNat ((l.drop 7).takeWhile Char.isDigit),
      ((l.drop 7).dropWhile Char.isDigit).drop 2)
  else none

theorem matchMarker_length {l : List Char} {n : Nat} {rest2 : List Char}
    (h : matchMarker l = some (n, rest2)) : rest2.length < l.length := by
  unfold matchMarker at h
  split at h
  · rename_i hcond
    obtain ⟨hpre, -, htk⟩ := hcond
    have hl : 7 ≤ l.length := by
      have := ( List.isPrefixOf_iff_prefix.mp hpre).length_le
      simpa [markerOpen] using this
    have hdw : ((l.drop 7).dropWhile Char.isDigit).length ≤ (l.drop 7).length :=
      (List.dropWhile_sublist _).length_le
    rw [List.length_drop] at hdw
    have h2 : 2 ≤ ((l.drop 7).dropWhile Char.isDigit).length := by
      have := congrArg List.length htk
      simp only [List.length_take, List.length_cons, List.length_nil] at this
      omega
    injection h with h'
    have hr2 : rest2 = ((l.drop 7).dropWhile Char.isDigit).drop 2 :=
      (congrArg Prod.snd h').symm
    rw [hr2, List.length_drop]
    omega
  · exact absurd h (by simp)

/-- Fuel-indexed left-to-right scan of the global regex
`/\[\[slnc (\d+)\]\]/g`: at each position try a match; on success skip the
match, add `N/1000` seconds to the silence total and drop the matched text
from the clean text; otherwise keep the character and advance by one.
This single scan models both the `exec` loop (lines 39-41 of timing.ts)
and the `replace` call (line 43), which find the same non-overlapping
leftmost matches.  `fuel ≥ l.length` guarantees the scan finishes. -/
def scanMarkersF : Nat → List Char → List Char × ℚ
  | 0, l => (l, 0)
  | _ + 1, [] => ([], 0)
  | fuel + 1, c :: rest =>
    match matchMarker (c :: rest) with
    | some (n, rest2) =>
      ((scanMarkersF fuel rest2).1, (n : ℚ) / 1000 + (scanMarkersF fuel rest2).2)
    | none =>
      (c :: (scanMarkersF fuel rest).1, (scanMarkersF fuel rest).2)

theorem scanMarkersF_fuel (fuel : Nat) :
    ∀ (fuel' : Nat) (l : List Char), l.length ≤ fuel → l.length ≤ fuel' →
      scanMarkersF fuel l = scanMarkersF fuel' l := by
  induction fuel with
  | zero =>
    intro fuel' l h _
    have : l = [] := List.eq_nil_of_length_eq_zero (Nat.le_zero.mp h)
    subst this
    cases fuel' <;> rfl
  | succ f ih =>
    intro fuel' l h h'
    cases l with
    | nil => cases fuel' <;> rfl
    | cons c rest =>
      cases fuel' with
      | zero => simp at h'
      | succ f' =>
        simp only [List.length_cons] at h h'
        simp only [scanMarkersF]
        cases hm : matchMarker (c :: rest) with
        | none =>
          dsimp only
          rw [ih f' rest (by omega) (by omega)]
        | some p =>
          obtain ⟨n, rest2⟩ := p
          have hlen := matchMarker_length hm
          simp only [List.length_cons] at hlen
          dsimp only
          rw [ih f' rest2 (by omega) (by omega)]

/-- The scan of the whole string, with just enough fuel. -/
def scanMarkers (l : List Char) : List Char × ℚ :=
  scanMarkersF l.length l

theorem scanMarkers_cons (c : Char) (rest : List Char) :
    scanMarkers (c :: rest) =
      match matchMarker (c :: rest) with
      | some (n, rest2) =>
        ((scanMarkers rest2).1, (n : ℚ) / 1000 + (scanMarkers rest2).2)
      | none => (c :: (scanMarkers rest).1, (scanMarkers rest).2) := by
  show scanMarkersF (rest.length + 1) (c :: rest) = _
  simp only [scanMarkersF]
  cases hm : matchMarker (c :: rest) with
  | none =>
    rfl
  | some p =>
    obtain ⟨n, rest2⟩ := p
    have hlen := matchMarker_length hm
    simp only [List.length_cons] at hlen
    show ((scanMarkersF rest.length rest2).1, _) = _
    rw [scanMarkersF_fuel rest.length rest2.length rest2 (by omega) (le_refl _)]
    rfl

/-- Result record of `parseSilenceMarkers`. -/
structure ParseResult where
  cleanText : List Char
  totalSilence : ℚ
deriving DecidableEq, Repr

/-- The function `parseSilenceMarkers` (timing.ts lines 34-46). -/
def parseSilenceMarkers (text : List Char) : ParseResult :=
  ⟨(scanMarkers text).1, (scanMarkers text).2⟩

/-- A match can only start at a `[`. -/
theorem matchMarker_none_of_head (c : Char) (rest : List Char) (hc : c ≠ '[') :
    matchMarker (c :: rest) = none := by
  have hpre : markerOpen.isPrefixOf (c :: rest) = false := by
    simp only [markerOpen, List.isPrefixOf, Bool.and_eq_false_iff]
    left
    simpa [beq_iff_eq] using fun he => hc he.symm
  simp [matchMarker, hpre]

/-- A bracket-free string contains no marker, so the scan keeps every
character and reports zero silence. -/
theorem scanMarkers_no_bracket (l : List Char) (h : '[' ∉ l) :
    scanMarkers l = (l, 0) := by
  induction l with
  | nil => rfl
  | cons c rest ih =>
    have hc : c ≠ '[' := fun he => h (he ▸ List.mem_cons_self c rest)
    rw [scanMarkers_cons, matchMarker_none_of_head c rest hc,
      ih (fun hmem => h (List.mem_cons_of_mem c hmem))]

/-- Counterexample to claim C5: removing the leftmost matches can splice marker
fragments into a fresh marker.  For `"[[slnc 1[[slnc 2]]]]"` the only match
is the inner `[[slnc 2]]`; its removal leaves `"[[slnc 1]]"`, so a second
parse finds a marker and reports non-zero silence. -/
theorem parseSilence_idempotence_cex :
    (parseSilenceMarkers
        (parseSilenceMarkers ("[[slnc 1[[slnc 2]]]]".data)).cleanText).totalSilence ≠ 0 := by
  have hclean : (parseSilenceMarkers ("[[slnc 1[[slnc 2]]]]".data)).cleanText
      = "[[slnc 1]]".data := by decide
  rw [hclean]
  simp only [parseSilenceMarkers]
  rw [scanMarkers_cons]
  rw [show matchMarker ['[', '[', 's', 'l', 'n', 'c', ' ', '1', ']', ']']
      = some (1, []) from by decide]
  norm_num [scanMarkers, scanMarkersF]

/-- Claim C5 as amended: re-parsing the clean text finds zero silence whenever the
clean text contains no `[` character — in particular whenever every bracket
of the input belongs to a well-formed marker.  (The unrestricted claim is
refuted by `parseSilence_idempotence_cex`.) -/
theorem parseSilence_reparse_zero (s : List Char)
    (h : '[' ∉ (parseSilenceMarkers s).cleanText) :
    (parseSilenceMarkers (parseSilenceMarkers s).cleanText).totalSilence = 0 := by
  simp only [parseSilenceMarkers] at h ⊢
  rw [scanMarkers_no_bracket _ h]

/-- Witness for the amended C5 on `"a [[slnc 500]] b"`. -/
theorem parseSilence_reparse_zero_witness :
    (parseSilenceMarkers
        (parseSilenceMarkers ("a [[slnc 500]] b".data)).cleanText).totalSilence = 0 :=
  parseSilence_reparse_zero _ (by decide)

/-- The function `calculateTotalDuration` (timing.ts lines 51-59). -/
def calculateTotalDuration (text : List Char) (style : Style) : ℚ :=
  calculateSpeakingDuration (parseSilenceMarkers text).cleanText style
    + (parseSilenceMarkers text).totalSilence

/-- One element of `narration.split(/(\[\[slnc \d+\]\])/)`: a plain-text
piece, or a captured marker separator (carrying its millisecond value).
A plain-text piece produced by `split` can never itself contain a marker
match, so recording the parsed value for separators loses nothing. -/
inductive Part
  | text (s : List Char)
  | silence (ms : Nat)
deriving DecidableEq, Repr

/-- Fuel-indexed split on the capturing marker regex (timing.ts line 69):
accumulate plain text (in reverse) until a marker matches, then emit the
accumulated piece and the separator and continue after the match.  Like
JavaScript's `split`, leading/trailing/between pieces are emitted even when
empty. -/
def splitPartsF : Nat → List Char → List Char → List Part
  | 0, acc, l => [Part.text (acc.reverse ++ l)]
  | _ + 1, acc, [] => [Part.text acc.reverse]
  | fuel + 1, acc, c :: rest =>
    match matchMarker (c :: rest) with
    | some (n, rest2) => Part.text acc.reverse :: Part.silence n :: splitPartsF fuel [] rest2
    | none => splitPartsF fuel (c :: acc) rest

theorem splitPartsF_fuel (fuel : Nat) :
    ∀ (fuel' : Nat) (acc l : List Char), l.length ≤ fuel → l.length ≤ fuel' →
      splitPartsF fuel acc l = splitPartsF fuel' acc l := by
  induction fuel with
  | zero =>
    intro fuel' acc l h _
    have : l = [] := List.eq_nil_of_length_eq_zero (Nat.le_zero.mp h)
    subst this
    cases fuel' <;> simp [splitPartsF]
  | succ f ih =>
    intro fuel' acc l h h'
    cases l with
    | nil => cases fuel' <;> simp [splitPartsF]
    | cons c rest =>
      cases fuel' with
      | zero => simp at h'
      | succ f' =>
        simp only [List.length_cons] at h h'
        simp only [splitPartsF]
        cases hm : matchMarker (c :: rest) with
        | none =>
          dsimp only
          rw [ih f' (c :: acc) rest (by omega) (by omega)]
        | some p =>
          obtain ⟨n, rest2⟩ := p
          have hlen := matchMarker_length hm
          simp only [List.length_cons] at hlen
          dsimp only
          rw [ih f' [] rest2 (by omega) (by omega)]

/-- The split of the whole narration, with just enough fuel. -/
def splitParts (l : List Char) : List Part :=
  splitPartsF l.length [] l

/-- One timed narration segment (`NarrationTiming` in src/types). -/
structure NarrationTiming where
  text : List Char
  startTime : ℚ
  duration : ℚ
deriving DecidableEq, Repr

/-- The segment-emitting loop of `createTimingSegments` (timing.ts lines
73-95): marker parts emit a silence segment and advance the clock; plain
parts with non-empty trim emit a speech segment (text trimmed, duration
from the untrimmed part) and advance the clock; whitespace-only parts are
skipped. -/
def segmentsFromParts (style : Style) : List Part → ℚ → List NarrationTiming
  | [], _ => []
  | Part.silence n :: ps, t =>
    ⟨[], t, (n : ℚ) / 1000⟩ :: segmentsFromParts style ps (t + (n : ℚ) / 1000)
  | Part.text s :: ps, t =>
    if jsTrim s = [] then segmentsFromParts style ps t
    else
      ⟨jsTrim s, t, calculateSpeakingDuration s style⟩ ::
        segmentsFromParts style ps (t + calculateSpeakingDuration s style)

/-- The function `createTimingSegments` (timing.ts lines 64-98). -/
def createTimingSegments (narration : List Char) (style : Style) : List NarrationTiming :=
  segmentsFromParts style (splitParts narration) 0

/-- The function `calculateFrameDurations` (timing.ts lines 104-143).  `Math.ceil(len /
frameCount)` is `(len + frameCount - 1) / frameCount` in `Nat`; the JS
slice `[i*spf, min((i+1)*spf, len))` is `take spf` after `drop (i*spf)`. -/
def calculateFrameDurations (frameCount : Nat)
    (audioSegments : List NarrationTiming) : List ℚ :=
  if frameCount = 0 then []
  else if audioSegments.length = 0 then List.replicate frameCount 3
  else if audioSegments.length < frameCount then
    List.replicate frameCount
      ((audioSegments.map NarrationTiming.duration).sum / (frameCount : ℚ))
  else
    (List.range frameCount).map fun i =>
      (((audioSegments.drop
            (i * ((audioSegments.length + frameCount - 1) / frameCount))).take
          ((audioSegments.length + frameCount - 1) / frameCount)).map
        NarrationTiming.duration).sum

/-- Claim C1: the allocator always returns exactly one duration per frame. -/
theorem frameDurations_length (frameCount : Nat)
    (audioSegments : List NarrationTiming) :
    (calculateFrameDurations frameCount audioSegments).length = frameCount := by
  unfold calculateFrameDurations
  split
  · simp [*]
  split
  · simp
  split
  · simp
  · simp

theorem len_le_mul_ceil (len fc : Nat) (h : 1 ≤ fc) :
    len ≤ fc * ((len + fc - 1) / fc) := by
  have h1 := Nat.div_add_mod (len + fc - 1) fc
  have h2 : (len + fc - 1) % fc < fc := Nat.mod_lt _ (by omega)
  omega

/-- Summing consecutive chunks of width `k` recovers the sum of the list,
provided the chunks cover it. -/
theorem sum_chunks (k : Nat) : ∀ (fc : Nat) (l : List ℚ), l.length ≤ fc * k →
    ((List.range fc).map fun i => ((l.drop (i * k)).take k).sum).sum = l.sum := by
  intro fc
  induction fc with
  | zero =>
    intro l h
    simp only [Nat.zero_mul, Nat.le_zero] at h
    have : l = [] := List.eq_nil_of_length_eq_zero h
    simp [this]
  | succ n ih =>
    intro l h
    rw [List.range_succ_eq_map]
    simp only [List.map_cons, List.sum_cons, List.map_map]
    have hcomp : ((fun i => ((l.drop (i * k)).take k).sum) ∘ Nat.succ)
        = fun i => (((l.drop k).drop (i * k)).take k).sum := by
      funext i
      simp only [Function.comp_apply]
      rw [List.drop_drop]
      congr 2
      rw [Nat.succ_mul, Nat.add_comm]
    have hlen : (l.drop k).length ≤ n * k := by
      rw [Nat.succ_mul] at h
      rw [List.length_drop]
      omega
    rw [hcomp, ih (l.drop k) hlen]
    rw [Nat.zero_mul, List.drop_zero]
    rw [← List.sum_append, List.take_append_drop]

/-- Claim C3: for at least one frame and a non-empty segment list, the allocated
frame durations sum exactly to the total narration-segment duration, in
both the even-spread case (`frameCount > segments.length`) and the grouped
case (`frameCount ≤ segments.length`).  Durations are exact rationals, so
"within floating-point tolerance" is exact equality here. -/
theorem frameDurations_sum (frameCount : Nat)
    (audioSegments : List NarrationTiming)
    (hfc : 1 ≤ frameCount) (hne : audioSegments ≠ []) :
    (calculateFrameDurations frameCount audioSegments).sum
      = (audioSegments.map NarrationTiming.duration).sum := by
  unfold calculateFrameDurations
  split
  · rename_i h; exact absurd h (by omega)
  split
  · rename_i h; exact absurd (List.length_eq_zero.mp h) hne
  split
  · rw [List.sum_replicate, nsmul_eq_mul]
    have hz : ((frameCount : ℚ)) ≠ 0 := Nat.cast_ne_zero.mpr (by omega)
    rw [mul_comm, div_mul_cancel₀ _ hz]
  · rename_i h0 hlen hge
    have hcov : (audioSegments.map NarrationTiming.duration).length
        ≤ frameCount * ((audioSegments.length + frameCount - 1) / frameCount) := by
      rw [List.length_map]
      exact len_le_mul_ceil _ _ hfc
    rw [← sum_chunks _ frameCount _ hcov]
    refine congrArg List.sum (List.map_congr_left fun i _ => ?_)
    rw [List.map_take, List.map_drop]

/-- Witness for C3: two frames over six one-second segments. -/
theorem frameDurations_sum_witness :
    (calculateFrameDurations 2
        (List.replicate 6 (⟨[], 0, 1⟩ : NarrationTiming))).sum
      = ((List.replicate 6 (⟨[], 0, 1⟩ : NarrationTiming)).map
          NarrationTiming.duration).sum :=
  frameDurations_sum 2 _ (by omega) (by simp)

/-- Counterexample to claim C2: with 5 frames over 7 positive one-second segments
the group width is `ceil(7/5) = 2`, the first four groups exhaust all seven
segments, and the fifth group is empty — its frame gets duration 0, so not
every allocated value is strictly positive. -/
theorem frameDurations_pos_cex :
    (∀ s ∈ List.replicate 7 (⟨[], 0, 1⟩ : NarrationTiming), 0 < s.duration) ∧
    ¬ (∀ d ∈ calculateFrameDurations 5
          (List.replicate 7 (⟨[], 0, 1⟩ : NarrationTiming)), 0 < d) := by
  constructor
  · intro s hs
    rw [List.eq_of_mem_replicate hs]
    norm_num
  · intro hall
    have h5 : calculateFrameDurations 5 (List.replicate 7 (⟨[], 0, 1⟩ : NarrationTiming))
        = [2, 2, 2, 1, 0] := by
      unfold calculateFrameDurations
      norm_num [List.range_succ, List.replicate]
    have := hall 0 (by rw [h5]; simp)
    exact absurd this (by norm_num)

/-- Claim C2 as amended: every allocated frame duration is non-negative (the
strictly-positive version is refuted by `frameDurations_pos_cex`). -/
theorem frameDurations_nonneg (frameCount : Nat)
    (audioSegments : List NarrationTiming)
    (hpos : ∀ s ∈ audioSegments, 0 < s.duration) :
    ∀ d ∈ calculateFrameDurations frameCount audioSegments, 0 ≤ d := by
  intro d hd
  unfold calculateFrameDurations at hd
  split at hd
  · simp at hd
  split at hd
  · rw [List.eq_of_mem_replicate hd]
    norm_num
  split at hd
  · rw [List.eq_of_mem_replicate hd]
    apply div_nonneg
    · apply List.sum_nonneg
      intro x hx
      obtain ⟨s, hs, rfl⟩ := List.mem_map.mp hx
      exact le_of_lt (hpos s hs)
    · exact Nat.cast_nonneg _
  · obtain ⟨i, -, rfl⟩ := List.mem_map.mp hd
    apply List.sum_nonneg
    intro x hx
    obtain ⟨s, hs, rfl⟩ := List.mem_map.mp hx
    exact le_of_lt (hpos s (List.mem_of_mem_drop (List.mem_of_mem_take hs)))

/-- Witness for the amended C2 at 5 frames over 7 unit segments. -/
theorem frameDurations_nonneg_witness :
    (∀ s ∈ List.replicate 7 (⟨[], 0, 1⟩ : NarrationTiming), 0 < s.duration) ∧
    (∀ d ∈ calculateFrameDurations 5
        (List.replicate 7 (⟨[], 0, 1⟩ : NarrationTiming)), 0 ≤ d) :=
  ⟨fun s hs => by rw [List.eq_of_mem_replicate hs]; norm_num,
    frameDurations_nonneg 5 _
      (fun s hs => by rw [List.eq_of_mem_replicate hs]; norm_num)⟩

/-- The segment loop emits a contiguous timeline: each segment starts where
the previous one ended, and the first emitted segment starts at the running
clock `t`. -/
theorem segmentsFromParts_chain (style : Style) (ps : List Part) (t : ℚ) :
    List.Chain' (fun a b => b.startTime = a.startTime + a.duration)
      (segmentsFromParts style ps t) ∧
    ∀ s ∈ (segmentsFromParts style ps t).head?, s.startTime = t := by
  induction ps generalizing t with
  | nil => exact ⟨List.chain'_nil, by simp [segmentsFromParts]⟩
  | cons p ps ih =>
    cases p with
    | silence n =>
      simp only [segmentsFromParts]
      refine ⟨List.chain'_cons'.mpr ⟨?_, (ih _).1⟩, by simp⟩
      intro b hb
      have hb' := (ih (t + (n : ℚ) / 1000)).2 b hb
      simpa using hb'
    | text s =>
      by_cases hts : jsTrim s = []
      · simpa only [segmentsFromParts, if_pos hts] using ih t
      · simp only [segmentsFromParts, if_neg hts]
        refine ⟨List.chain'_cons'.mpr ⟨?_, (ih _).1⟩, by simp⟩
        intro b hb
        have hb' := (ih (t + calculateSpeakingDuration s style)).2 b hb
        simpa using hb'

/-- Pushing one segment in front of a list whose last segment ends at
`t' + (total duration)` keeps the invariant, measured from the new head. -/
theorem lastEnd_cons (a : NarrationTiming) (L : List NarrationTiming)
    (hL : ∀ s ∈ L.getLast?, s.startTime + s.duration
      = (a.startTime + a.duration) + (L.map NarrationTiming.duration).sum) :
    ∀ s ∈ (a :: L).getLast?, s.startTime + s.duration
      = a.startTime + ((a :: L).map NarrationTiming.duration).sum := by
  cases L with
  | nil =>
    intro s hs
    simp only [List.getLast?_singleton, Option.mem_some_iff] at hs
    subst hs
    simp
  | cons b L' =>
    intro s hs
    rw [List.getLast?_cons_cons] at hs
    have := hL s hs
    simp only [List.map_cons, List.sum_cons] at this ⊢
    linarith

/-- The last segment emitted by the loop ends at the running clock plus the
total emitted duration. -/
theorem segmentsFromParts_lastEnd (style : Style) (ps : List Part) (t : ℚ) :
    ∀ s ∈ (segmentsFromParts style ps t).getLast?,
      s.startTime + s.duration
        = t + ((segmentsFromParts style ps t).map NarrationTiming.duration).sum := by
  induction ps generalizing t with
  | nil => simp [segmentsFromParts]
  | cons p ps ih =>
    cases p with
    | silence n =>
      simp only [segmentsFromParts]
      intro s hs
      have := lastEnd_cons ⟨[], t, (n : ℚ) / 1000⟩
        (segmentsFromParts style ps (t + (n : ℚ) / 1000))
        (by simpa using ih (t + (n : ℚ) / 1000)) s hs
      simpa using this
    | text sPart =>
      by_cases hts : jsTrim sPart = []
      · simpa only [segmentsFromParts, if_pos hts] using ih t
      · simp only [segmentsFromParts, if_neg hts]
        intro s hs
        have := lastEnd_cons ⟨jsTrim sPart, t, calculateSpeakingDuration sPart style⟩
          (segmentsFromParts style ps (t + calculateSpeakingDuration sPart style))
          (by simpa using ih (t + calculateSpeakingDuration sPart style)) s hs
        simpa using this

/-- Claim C4 as amended: the segments of `createTimingSegments` are contiguous,
and the last segment ends at the sum of all segment durations — not, in
general, at `calculateTotalDuration`, because the 2-second floor applies
per emitted segment there but once to the whole clean text here (refuted
by `segments_total_cex`). -/
theorem segments_contiguous_total (narration : List Char) (style : Style) :
    List.Chain' (fun a b => b.startTime = a.startTime + a.duration)
      (createTimingSegments narration style) ∧
    ∀ s ∈ (createTimingSegments narration style).getLast?,
      s.startTime + s.duration
        = ((createTimingSegments narration style).map NarrationTiming.duration).sum := by
  constructor
  · exact (segmentsFromParts_chain style (splitParts narration) 0).1
  · intro s hs
    have := segmentsFromParts_lastEnd style (splitParts narration) 0 s hs
    simpa using this

theorem scanMarkers_cons_none {c : Char} {rest : List Char}
    (h : matchMarker (c :: rest) = none) :
    scanMarkers (c :: rest) = (c :: (scanMarkers rest).1, (scanMarkers rest).2) := by
  rw [scanMarkers_cons, h]

theorem scanMarkers_cons_some {c : Char} {rest rest2 : List Char} {n : Nat}
    (h : matchMarker (c :: rest) = some (n, rest2)) :
    scanMarkers (c :: rest)
      = ((scanMarkers rest2).1, (n : ℚ) / 1000 + (scanMarkers rest2).2) := by
  rw [scanMarkers_cons, h]

theorem totalSilence_cexC4 :
    (parseSilenceMarkers ("a [[slnc 1000]] b".data)).totalSilence = 1 := by
  show (scanMarkers ("a [[slnc 1000]] b".data)).2 = 1
  rw [show ("a [[slnc 1000]] b".data) = 'a' :: " [[slnc 1000]] b".data from rfl]
  rw [scanMarkers_cons_none (show matchMarker ('a' :: " [[slnc 1000]] b".data)
    = none from by decide)]
  rw [show (" [[slnc 1000]] b".data) = ' ' :: "[[slnc 1000]] b".data from rfl]
  rw [scanMarkers_cons_none (show matchMarker (' ' :: "[[slnc 1000]] b".data)
    = none from by decide)]
  rw [show ("[[slnc 1000]] b".data) = '[' :: "[slnc 1000]] b".data from rfl]
  rw [scanMarkers_cons_some (show matchMarker ('[' :: "[slnc 1000]] b".data)
    = some (1000, " b".data) from by decide)]
  rw [scanMarkers_no_bracket (" b".data) (by decide)]
  norm_num

theorem totalDuration_cexC4 :
    calculateTotalDuration ("a [[slnc 1000]] b".data) Style.technical = 3 := by
  unfold calculateTotalDuration
  rw [show (parseSilenceMarkers ("a [[slnc 1000]] b".data)).cleanText
    = "a  b".data from by decide]
  rw [totalSilence_cexC4]
  rw [speakingDuration_le3 ("a  b".data) Style.technical (by decide)]
  norm_num

theorem lastEnd_cexC4 :
    ∀ s ∈ (createTimingSegments ("a [[slnc 1000]] b".data)
        Style.technical).getLast?,
      s.startTime + s.duration = 5 := by
  unfold createTimingSegments
  rw [show splitParts ("a [[slnc 1000]] b".data)
    = [Part.text ("a ".data), Part.silence 1000, Part.text (" b".data)] from by decide]
  simp only [segmentsFromParts,
    if_neg (show ¬jsTrim ("a ".data) = [] from by decide),
    if_neg (show ¬jsTrim (" b".data) = [] from by decide),
    speakingDuration_le3 ("a ".data) Style.technical (by decide),
    speakingDuration_le3 (" b".data) Style.technical (by decide)]
  intro s hs
  simp only [List.getLast?_cons_cons, List.getLast?_singleton,
    Option.mem_some_iff] at hs
  subst hs
  norm_num

/-- Counterexample to claim C4: for `"a [[slnc 1000]] b"` at technical style the
timeline ends at 5 s (the 2-second floor applies to each one-word speech
segment separately), while `calculateTotalDuration` floors the whole clean
text once and reports 3 s — so the last segment does not end at
`calculateTotalDuration`. -/
theorem segments_total_cex :
    ¬ (∀ s ∈ (createTimingSegments ("a [[slnc 1000]] b".data)
          Style.technical).getLast?,
        s.startTime + s.duration
          = calculateTotalDuration ("a [[slnc 1000]] b".data) Style.technical) := by
  intro hcl
  have hne : (createTimingSegments ("a [[slnc 1000]] b".data)
      Style.technical).getLast?.isSome := by
    rw [List.getLast?_isSome]
    intro he
    have := congrArg List.length he
    rw [show (createTimingSegments ("a [[slnc 1000]] b".data)
      Style.technical).length = 3 from by decide] at this
    simp at this
  obtain ⟨s, hs⟩ := Option.isSome_iff_exists.mp hne
  have h5 := lastEnd_cexC4 s hs
  have h3 := hcl s hs
  rw [totalDuration_cexC4] at h3
  rw [h5] at h3
  norm_num at h3

/-- Witness instantiating C4's amended statement on a concrete narrative. -/
theorem segments_contiguous_total_witness :
    List.Chain' (fun a b => b.startTime = a.startTime + a.duration)
      (createTimingSegments ("a [[slnc 1000]] b".data) Style.technical) ∧
    ∀ s ∈ (createTimingSegments ("a [[slnc 1000]] b".data)
        Style.technical).getLast?,
      s.startTime + s.duration
        = ((createTimingSegments ("a [[slnc 1000]] b".data)
            Style.technical).map NarrationTiming.duration).sum :=
  segments_contiguous_total _ _

/-- Claim C6: adjacent segments satisfy
`segments[i+1].startTime == segments[i].startTime + segments[i].duration`,
and the first segment starts at 0. -/
theorem segments_timeline (narration : List Char) (style : Style) :
    (∀ (i : Nat) (h : i + 1 < (createTimingSegments narration style).length),
      ((createTimingSegments narration style).get ⟨i + 1, h⟩).startTime
        = ((createTimingSegments narration style).get
            ⟨i, Nat.lt_of_succ_lt h⟩).startTime
          + ((createTimingSegments narration style).get
            ⟨i, Nat.lt_of_succ_lt h⟩).duration) ∧
    ∀ (h0 : 0 < (createTimingSegments narration style).length),
      ((createTimingSegments narration style).get ⟨0, h0⟩).startTime = 0 := by
  constructor
  · intro i h
    have h' : i < (segmentsFromParts style (splitParts narration) 0).length - 1 := by
      have heq : (segmentsFromParts style (splitParts narration) 0).length
          = (createTimingSegments narration style).length := rfl
      omega
    exact List.chain'_iff_get.mp
      (segmentsFromParts_chain style (splitParts narration) 0).1 i h'
  · intro h0
    have hh := (segmentsFromParts_chain style (splitParts narration) 0).2
    have hne : createTimingSegments narration style ≠ [] :=
      List.ne_nil_of_length_pos h0
    obtain ⟨a, L, hcl⟩ := List.exists_cons_of_ne_nil hne
    have ha : a.startTime = 0 := hh a (by
      show a ∈ (createTimingSegments narration style).head?
      rw [hcl]
      simp)
    have hget : (createTimingSegments narration style).get ⟨0, h0⟩ = a := by
      revert h0
      rw [hcl]
      intro h0
      rfl
    rw [hget, ha]

/-- Witness for C6 on a narrative with three segments. -/
theorem segments_timeline_witness :
    ((createTimingSegments ("a [[slnc 500]] b".data) Style.technical).get
        ⟨1, by decide⟩).startTime
      = ((createTimingSegments ("a [[slnc 500]] b".data) Style.technical).get
          ⟨0, by decide⟩).startTime
        + ((createTimingSegments ("a [[slnc 500]] b".data) Style.technical).get
          ⟨0, by decide⟩).duration ∧
    ((createTimingSegments ("a [[slnc 500]] b".data) Style.technical).get
        ⟨0, by decide⟩).startTime = 0 :=
  ⟨(segments_timeline _ _).1 0 (by decide), (segments_timeline _ _).2 (by decide)⟩

/-- The default (no-audio) frame durations of `generateVideo` (video.ts
lines 86-91): first and last frame (title/outro) 3 seconds, interior
(content) frames 5 seconds. -/
def defaultFrameDurations (frameCount : Nat) : List ℚ :=
  (List.range frameCount).map fun i =>
    if i = 0 ∨ i = frameCount - 1 then 3 else 5

/-- Outcome of the audio-generation step of `generateVideo` (video.ts lines
58-73): either one of the awaited calls throws, or both complete with a
reported duration and `validateAudio`'s verdict (false for a missing or
zero-byte file). -/
inductive AudioOutcome
  | thrown (staleDuration : ℚ)
  | completed (duration : ℚ) (valid : Bool)

/-- The pair `(hasAudio, audioDuration)` after step 2: the catch block swallows the
exception and forces `hasAudio = false` (`audioDuration` keeps whatever
value was assigned before the throw); on completion `hasAudio` is
`validateAudio`'s verdict. -/
def audioStepState : AudioOutcome → Bool × ℚ
  | .thrown d => (false, d)
  | .completed d valid => (valid, d)

/-- Step-3 frame-duration selection of `generateVideo` (video.ts lines
77-93): synchronize with the narration timeline only when `hasAudio &&
audioDuration > 0`, otherwise use the fixed default pattern. -/
def selectFrameDurations (hasAudio : Bool) (audioDuration : ℚ)
    (frameCount : Nat) (narrative : List Char) (style : Style) : List ℚ :=
  if hasAudio = true ∧ 0 < audioDuration then
    calculateFrameDurations frameCount (createTimingSegments narrative style)
  else
    defaultFrameDurations frameCount

/-- Claim C7: when the speech-synthesis step throws or validation rejects the
audio file, the pipeline continues with `hasAudio = false` and the fixed
3/5/3 heuristic; a 3-frame run gets `[3, 5, 3]`. -/
theorem audioFailure_fallback (outcome : AudioOutcome) (frameCount : Nat)
    (narrative : List Char) (style : Style)
    (h : (∃ d, outcome = .thrown d) ∨ ∃ d, outcome = .completed d false) :
    (audioStepState outcome).1 = false ∧
    selectFrameDurations (audioStepState outcome).1 (audioStepState outcome).2
        frameCount narrative style = defaultFrameDurations frameCount ∧
    defaultFrameDurations 3 = [3, 5, 3] := by
  have h353 : defaultFrameDurations 3 = [3, 5, 3] := by
    simp [defaultFrameDurations, List.range_succ]
  obtain ⟨d, rfl⟩ | ⟨d, rfl⟩ := h <;>
    exact ⟨rfl, by simp [selectFrameDurations, audioStepState], h353⟩

/-- Witness for C7: a thrown synthesis error with a 3-frame run. -/
theorem audioFailure_fallback_witness :
    (audioStepState (AudioOutcome.thrown 0)).1 = false ∧
    selectFrameDurations (audioStepState (AudioOutcome.thrown 0)).1
        (audioStepState (AudioOutcome.thrown 0)).2 3 [] Style.technical
      = defaultFrameDurations 3 ∧
    defaultFrameDurations 3 = [3, 5, 3] :=
  audioFailure_fallback (AudioOutcome.thrown 0) 3 [] Style.technical
    (Or.inl ⟨0, rfl⟩)

theorem splitPartsF_all_ws :
    ∀ (l acc : List Char) (fuel : Nat), l.length ≤ fuel →
      (∀ c ∈ l, isJsWhitespace c) →
      splitPartsF fuel acc l = [Part.text (acc.reverse ++ l)] := by
  intro l
  induction l with
  | nil =>
    intro acc fuel _ _
    cases fuel <;> simp [splitPartsF]
  | cons c rest ih =>
    intro acc fuel hf h
    cases fuel with
    | zero => simp at hf
    | succ f =>
      simp only [List.length_cons] at hf
      simp only [splitPartsF]
      have hc : c ≠ '[' := by
        intro he
        have hw := h c (List.mem_cons_self c rest)
        rw [he] at hw
        simp [isJsWhitespace] at hw
      rw [matchMarker_none_of_head c rest hc]
      dsimp only
      rw [ih (c :: acc) f (by omega) (fun x hx => h x (List.mem_cons_of_mem c hx))]
      simp

/-- Claim C10: a whitespace-only narrative (including the empty string) yields no
timing segments, so the allocator falls back to 3 seconds per frame — also
on the audio path, where `calculateFrameDurations` receives the empty
segment list even though `hasAudio` is true. -/
theorem whitespace_segments (narration : List Char) (style : Style)
    (frameCount : Nat) (h : ∀ c ∈ narration, isJsWhitespace c) :
    createTimingSegments narration style = [] ∧
    calculateFrameDurations frameCount (createTimingSegments narration style)
      = List.replicate frameCount 3 ∧
    ∀ audioDuration : ℚ, 0 < audioDuration →
      selectFrameDurations true audioDuration frameCount narration style
        = List.replicate frameCount 3 := by
  have hsplit : splitParts narration = [Part.text narration] := by
    unfold splitParts
    rw [splitPartsF_all_ws narration [] narration.length (le_refl _) h]
    simp
  have htrim : jsTrim narration = [] := by
    unfold jsTrim
    rw [List.dropWhile_eq_nil_iff.mpr (fun x hx => h x hx)]
    simp
  have hseg : createTimingSegments narration style = [] := by
    unfold createTimingSegments
    rw [hsplit]
    simp [segmentsFromParts, htrim]
  have hfd : calculateFrameDurations frameCount
      (createTimingSegments narration style) = List.replicate frameCount 3 := by
    rw [hseg]
    unfold calculateFrameDurations
    rcases Nat.eq_zero_or_pos frameCount with h0 | h0
    · simp [h0]
    · simp [Nat.pos_iff_ne_zero.mp h0]
  refine ⟨hseg, hfd, fun audioDuration hpos => ?_⟩
  rw [selectFrameDurations, if_pos ⟨rfl, hpos⟩]
  exact hfd

/-- Witness for C10 on the narrative `" \t "` with 4 frames. -/
theorem whitespace_segments_witness :
    createTimingSegments (" \t ".data) Style.overview = [] ∧
    calculateFrameDurations 4 (createTimingSegments (" \t ".data) Style.overview)
      = List.replicate 4 3 ∧
    ∀ audioDuration : ℚ, 0 < audioDuration →
      selectFrameDurations true audioDuration 4 (" \t ".data) Style.overview
        = List.replicate 4 3 :=
  whitespace_segments (" \t ".data) Style.overview 4 (by decide)

end Walkthrough
